import Mathlib

/-!
Verification development for the tts-copilot repository.

The TypeScript sources are shallowly embedded here:
* `TextProcessor` (src/tts-engine.ts): `parseText` and `isValidForTTS`,
  modelled over `List Char` with the JavaScript regex semantics of
  `replace` and `split` spelled out as structural recursions.
* `ConfigManager` (src/config.ts): a pure value model of the stored
  `TTSCopilotConfig` (numbers as rationals, runtime objects with
  possibly-missing fields as `Option` fields), plus a small heap model
  giving the nested voice/copilot objects an identity, so that the
  sharing behaviour of the spread copy in `getConfig` is expressible.
* `TTSEngine` (src/tts-engine.ts): state = held voice config plus the
  `currentProcess` handle; calls into the external `say` backend are
  recorded as an event trace.
* `CopilotIntegration` (src/copilot-integration.ts): connection and
  listening flags, listener registry, and the per-listener try/catch of
  `notifySuggestionListeners`.
* `TTSCopilot` (src/tts-copilot.ts): the orchestrator composing the
  above, with `isRunning` as its lifecycle flag.
-/

/-! ## Character classes (JavaScript regex semantics) -/

/-- The backquote character, written via its code point. -/
def backquote : Char := Char.ofNat 96

/-- JavaScript `\s`: the whitespace class used by `trim`, `\s+` and the
allow-set of `parseText`. -/
def jsWhitespace (c : Char) : Bool :=
  c.toNat == 32 || c.toNat == 9 || c.toNat == 10 || c.toNat == 11 ||
  c.toNat == 12 || c.toNat == 13 || c.toNat == 0xa0 || c.toNat == 0x1680 ||
  (0x2000 ≤ c.toNat && c.toNat ≤ 0x200a) || c.toNat == 0x2028 ||
  c.toNat == 0x2029 || c.toNat == 0x202f || c.toNat == 0x205f ||
  c.toNat == 0x3000 || c.toNat == 0xfeff

/-- JavaScript `\w`: ASCII letters, digits and underscore. -/
def jsWordChar (c : Char) : Bool :=
  (65 ≤ c.toNat && c.toNat ≤ 90) || (97 ≤ c.toNat && c.toNat ≤ 122) ||
  (48 ≤ c.toNat && c.toNat ≤ 57) || c.toNat == 95

/-- The punctuation kept by `parseText`, from the regex
`[^\w\s.,!?;:()-]`. -/
def keptPunct (c : Char) : Bool :=
  c == '.' || c == ',' || c == '!' || c == '?' || c == ';' || c == ':' ||
  c == '(' || c == ')' || c == '-'

/-- A character surviving the final filter of `parseText`
(`replace(/[^\w\s.,!?;:()-]/g, "")` keeps exactly these). -/
def allowedChar (c : Char) : Bool :=
  jsWordChar c || jsWhitespace c || keptPunct c

/-! ## TextProcessor.parseText (src/tts-engine.ts, lines 144-162) -/

/-- Scanner for `replace(/\x60\x60\x60[\s\S]*?\x60\x60\x60/g, "")`
(fenced code blocks; the delimiter is three backquotes).
`none` = outside a fence; `some buf` = a fence opener was seen and `buf`
holds the characters read since (reversed).  A closing delimiter is the
first later occurrence of three consecutive backquotes (the regex
content is lazy); an opener with no closer matches nothing, so the
scanned tail is emitted unchanged. -/
def stripFencesAux : Option (List Char) → List Char → List Char
  | none, a :: b :: c :: rest =>
    if a = backquote ∧ b = backquote ∧ c = backquote then
      stripFencesAux (some []) rest
    else
      a :: stripFencesAux none (b :: c :: rest)
  | none, l => l
  | some buf, a :: b :: c :: rest =>
    if a = backquote ∧ b = backquote ∧ c = backquote then
      stripFencesAux none rest
    else
      stripFencesAux (some (a :: buf)) (b :: c :: rest)
  | some buf, l => backquote :: backquote :: backquote :: (buf.reverse ++ l)

/-- `rawText.replace(/\x60\x60\x60[\s\S]*?\x60\x60\x60/g, "")`. -/
def stripFences (l : List Char) : List Char := stripFencesAux none l

/-- Scanner for `replace(/\x60[^\x60]*\x60/g, "")` (inline code).
`none` = outside a span; `some buf` = an opening backquote was seen and
`buf` holds the characters read since (reversed).  The next backquote
closes the span; an opening backquote with no closer matches nothing. -/
def stripInlineAux : Option (List Char) → List Char → List Char
  | none, [] => []
  | none, c :: rest =>
    if c = backquote then stripInlineAux (some []) rest
    else c :: stripInlineAux none rest
  | some buf, [] => backquote :: buf.reverse
  | some buf, c :: rest =>
    if c = backquote then stripInlineAux none rest
    else stripInlineAux (some (c :: buf)) rest

/-- `cleanText.replace(/\x60[^\x60]*\x60/g, "")`. -/
def stripInline (l : List Char) : List Char := stripInlineAux none l

/-- Scanner for `replace(/\s+/g, " ")`: each maximal nonempty run of
whitespace becomes a single space.  The flag records whether the
previous character was part of a whitespace run. -/
def collapseAux : Bool → List Char → List Char
  | _, [] => []
  | prevWs, c :: rest =>
    if jsWhitespace c then
      if prevWs then collapseAux true rest
      else ' ' :: collapseAux true rest
    else c :: collapseAux false rest

/-- `cleanText.replace(/\s+/g, " ")`. -/
def collapseWs (l : List Char) : List Char := collapseAux false l

/-- Drop trailing whitespace (the right half of `String.prototype.trim`). -/
def dropTrailingWs : List Char → List Char
  | [] => []
  | c :: rest =>
    match dropTrailingWs rest with
    | [] => if jsWhitespace c then [] else [c]
    | r => c :: r

/-- `String.prototype.trim`: drop leading and trailing whitespace. -/
def trimStr (l : List Char) : List Char :=
  dropTrailingWs (l.dropWhile jsWhitespace)

/-- `cleanText.replace(/[^\w\s.,!?;:()-]/g, "")`. -/
def filterAllowed (l : List Char) : List Char := l.filter allowedChar

/-- The four-stage cleaning pipeline of `TextProcessor.parseText`. -/
def parseTextPipeline (l : List Char) : List Char :=
  filterAllowed (trimStr (collapseWs (stripInline (stripFences l))))

/-- `TextProcessor.parseText` on the character list, including the
`if (!rawText) return ""` guard (the empty string is falsy). -/
def parseTextL (l : List Char) : List Char :=
  if l = [] then [] else parseTextPipeline l

/-- `TextProcessor.parseText` (src/tts-engine.ts lines 144-162). -/
def parseText (s : String) : String := String.mk (parseTextL s.data)

/-! ## TextProcessor.isValidForTTS (src/tts-engine.ts, lines 169-182) -/

/-- Scanner for `text.split(/\s+/)` with JavaScript semantics: the
pieces between maximal whitespace runs, including an empty piece when
the text starts or ends with whitespace.  `cur` accumulates the current
piece (reversed); the flag records whether the previous character was
part of a whitespace run (whose later characters emit nothing). -/
def splitWsAux : Bool → List Char → List Char → List (List Char)
  | _, cur, [] => [cur.reverse]
  | prevWs, cur, c :: rest =>
    if jsWhitespace c then
      if prevWs then splitWsAux true [] rest
      else cur.reverse :: splitWsAux true [] rest
    else splitWsAux false (c :: cur) rest

/-- `text.split(/\s+/)`. -/
def splitWs (l : List Char) : List (List Char) := splitWsAux false [] l

/-- `TextProcessor.isValidForTTS` (src/tts-engine.ts lines 169-182):
false on empty or blank text, false when longer than 1000 characters,
otherwise true iff some nonempty whitespace-delimited word remains. -/
def isValidForTTS (s : String) : Bool :=
  if s.data = [] || (trimStr s.data).length = 0 then false
  else if s.data.length > 1000 then false
  else ((splitWs s.data).filter (fun w => w.length > 0)).length > 0

/-! ## Configuration data model (src/config.ts)

Numbers are modelled as rationals.  Runtime JavaScript objects may lack
a field (TypeScript optionality, or a field never supplied), so object
fields that can be absent are `Option`-valued; `none` is `undefined`.
A JavaScript comparison `x < y` where `x` is `undefined` is false, which
`jsltB`/`jsgtB` capture. -/

/-- The runtime voice-config object (interface `VoiceConfig`). -/
structure VoiceConfig where
  pitch : Option ℚ
  speed : Option ℚ
  volume : Option ℚ
  voice : Option String
deriving DecidableEq, Repr

/-- The runtime copilot-config object (`TTSCopilotConfig.copilot`). -/
structure CopilotConfig where
  apiUrl : Option String
  apiKey : Option String
  enabled : Bool
deriving DecidableEq, Repr

/-- The runtime app-config object (interface `TTSCopilotConfig`). -/
structure AppConfig where
  voice : VoiceConfig
  realTimeEnabled : Bool
  copilot : CopilotConfig
deriving DecidableEq, Repr

/-- A `Partial<VoiceConfig>` argument: every field may be absent. -/
structure VoicePatch where
  pitch : Option ℚ := none
  speed : Option ℚ := none
  volume : Option ℚ := none
  voice : Option String := none
deriving DecidableEq, Repr

/-- A `Partial<TTSCopilotConfig.copilot>` argument. -/
structure CopilotPatch where
  apiUrl : Option String := none
  apiKey : Option String := none
  enabled : Option Bool := none
deriving DecidableEq, Repr

/-- A `Partial<TTSCopilotConfig>` argument (the shallow TypeScript
`Partial`: a supplied `voice` key carries a whole voice object). -/
structure AppConfigPatch where
  voice : Option VoiceConfig := none
  realTimeEnabled : Option Bool := none
  copilot : Option CopilotConfig := none
deriving DecidableEq, Repr

/-- Spread override: a present field of the patch wins. -/
def ovr {α : Type} (patchField : Option α) (cur : Option α) : Option α :=
  match patchField with
  | some v => some v
  | none => cur

/-- `DEFAULT_CONFIG` (src/config.ts lines 254-264). -/
def DEFAULT_CONFIG : AppConfig :=
  { voice := { pitch := some 1, speed := some 1, volume := some 1, voice := none }
    realTimeEnabled := true
    copilot := { apiUrl := none, apiKey := none, enabled := false } }

/-- JavaScript `x < y` for a possibly-undefined left operand
(`undefined < y` is false). -/
def jsltB (x : Option ℚ) (y : ℚ) : Bool :=
  match x with
  | none => false
  | some v => decide (v < y)

/-- JavaScript `x > y` for a possibly-undefined left operand. -/
def jsgtB (x : Option ℚ) (y : ℚ) : Bool :=
  match x with
  | none => false
  | some v => decide (v > y)

namespace ConfigManager

/-- `new ConfigManager(initialConfig)` (src/config.ts lines 272-274):
`this.config = { ...DEFAULT_CONFIG, ...initialConfig }` — a shallow
top-level spread, no validation. -/
def construct (initialConfig : Option AppConfigPatch) : AppConfig :=
  match initialConfig with
  | none => DEFAULT_CONFIG
  | some p =>
    { voice := p.voice.getD DEFAULT_CONFIG.voice
      realTimeEnabled := p.realTimeEnabled.getD DEFAULT_CONFIG.realTimeEnabled
      copilot := p.copilot.getD DEFAULT_CONFIG.copilot }

/-- `getConfig` (src/config.ts lines 279-281) as a value: the snapshot
carries the same field values as the store.  (Object identity of the
copy is treated separately in the heap model below.) -/
def getConfig (config : AppConfig) : AppConfig := config

/-- The voice merge `{ ...this.config.voice, ...voiceConfig }` inside
`updateVoiceConfig`. -/
def mergeVoice (cur : VoiceConfig) (p : VoicePatch) : VoiceConfig :=
  { pitch := ovr p.pitch cur.pitch
    speed := ovr p.speed cur.speed
    volume := ovr p.volume cur.volume
    voice := ovr p.voice cur.voice }

/-- `validateVoiceConfig` (src/config.ts lines 308-322): the first
out-of-range field raises; a missing field raises nothing because both
JavaScript comparisons on `undefined` are false. -/
def validateVoiceConfig (v : VoiceConfig) : Option String :=
  if jsltB v.pitch 0 || jsgtB v.pitch 2 then
    some "Pitch must be between 0.0 and 2.0"
  else if jsltB v.speed (1/10) || jsgtB v.speed 10 then
    some "Speed must be between 0.1 and 10.0"
  else if jsltB v.volume 0 || jsgtB v.volume 1 then
    some "Volume must be between 0.0 and 1.0"
  else none

/-- `updateVoiceConfig` (src/config.ts lines 286-289): assign the merged
voice object to `this.config.voice`, then validate.  The returned pair
is the state of the store after the call together with the raised error
if validation failed; the assignment happens before validation, so the
state is the merged one in both cases. -/
def updateVoiceConfig (config : AppConfig) (p : VoicePatch) :
    AppConfig × Option String :=
  let merged := mergeVoice config.voice p
  ({ config with voice := merged }, validateVoiceConfig merged)

/-- The copilot merge `{ ...this.config.copilot, ...copilotConfig }`. -/
def mergeCopilot (cur : CopilotConfig) (p : CopilotPatch) : CopilotConfig :=
  { apiUrl := ovr p.apiUrl cur.apiUrl
    apiKey := ovr p.apiKey cur.apiKey
    enabled := p.enabled.getD cur.enabled }

/-- `updateCopilotConfig` (src/config.ts lines 294-296): merge, no
validation. -/
def updateCopilotConfig (config : AppConfig) (p : CopilotPatch) : AppConfig :=
  { config with copilot := mergeCopilot config.copilot p }

/-- `setRealTimeEnabled` (src/config.ts lines 301-303). -/
def setRealTimeEnabled (config : AppConfig) (enabled : Bool) : AppConfig :=
  { config with realTimeEnabled := enabled }

end ConfigManager

/-- A defined numeric field lying outside its closed range. -/
def fieldOutOfRange : Option ℚ → ℚ → ℚ → Prop
  | none, _, _ => False
  | some x, lo, hi => x < lo ∨ x > hi

instance : (x : Option ℚ) → (lo hi : ℚ) → Decidable (fieldOutOfRange x lo hi)
  | none, _, _ => isFalse (fun h => h)
  | some x, lo, hi => inferInstanceAs (Decidable (x < lo ∨ x > hi))

/-- The range condition of the spec (section 3 of the documentation):
a defined pitch outside [0,2], or a defined speed outside [0.1,10], or a
defined volume outside [0,1]. -/
def voiceOutOfRange (v : VoiceConfig) : Prop :=
  fieldOutOfRange v.pitch 0 2 ∨ fieldOutOfRange v.speed (1/10) 10 ∨
    fieldOutOfRange v.volume 0 1

instance (v : VoiceConfig) : Decidable (voiceOutOfRange v) :=
  inferInstanceAs (Decidable (_ ∨ _ ∨ _))

/-! ## Heap model of the stored config object (for the sharing
behaviour of `getConfig`)

`this.config` is a JavaScript object whose `voice` and `copilot` fields
are references to nested objects.  `getConfig` returns
`{ ...this.config }`: a fresh top-level object whose nested fields hold
the same references.  Addresses are indices into per-kind heaps. -/

/-- The heap of nested config objects. -/
structure ConfigHeap where
  voiceCells : List VoiceConfig
  copilotCells : List CopilotConfig
deriving DecidableEq, Repr

/-- A top-level config object: references to the nested objects plus
the inline primitive field. -/
structure ConfigRef where
  voiceAddr : Nat
  copilotAddr : Nat
  realTimeEnabled : Bool
deriving DecidableEq, Repr

/-- A `ConfigManager` instance at the object level: its heap and the
`this.config` object. -/
structure ConfigManagerH where
  heap : ConfigHeap
  cfg : ConfigRef
deriving DecidableEq, Repr

/-- `getConfig` at the object level: `{ ...this.config }` builds a new
top-level object copying each field value — for `voice` and `copilot`
the copied values are the references themselves. -/
def ConfigManagerH.getConfigH (m : ConfigManagerH) : ConfigRef :=
  { voiceAddr := m.cfg.voiceAddr
    copilotAddr := m.cfg.copilotAddr
    realTimeEnabled := m.cfg.realTimeEnabled }

/-- A caller mutating `pitch` through a voice-object reference it
holds: writes the heap cell at that address. -/
def writeVoicePitchAt (h : ConfigHeap) (addr : Nat) (q : ℚ) : ConfigHeap :=
  let cell := h.voiceCells.getD addr DEFAULT_CONFIG.voice
  { h with voiceCells := h.voiceCells.set addr { cell with pitch := some q } }

/-- The pitch the store observes through its own `voice` reference. -/
def readStoredPitch (m : ConfigManagerH) : Option ℚ :=
  (m.heap.voiceCells.getD m.cfg.voiceAddr DEFAULT_CONFIG.voice).pitch

/-- A freshly constructed manager at the object level: one voice cell
and one copilot cell holding the default values. -/
def defaultManagerH : ConfigManagerH :=
  { heap := { voiceCells := [DEFAULT_CONFIG.voice]
              copilotCells := [DEFAULT_CONFIG.copilot] }
    cfg := { voiceAddr := 0, copilotAddr := 0, realTimeEnabled := true } }

/-! ## TTSEngine (src/tts-engine.ts)

Calls into the external `say` backend are recorded as events.  The
`currentProcess` handle is non-null exactly while an utterance is
unresolved (it is set from the synchronous return of `say.speak` and
cleared in the completion callback). -/

/-- A call reaching the `say` backend. -/
inductive BackendEvent where
  | sayStop
  | saySpeak (text : String) (voice : Option String) (speed : ℚ)
deriving DecidableEq, Repr

/-- Engine state: the held voice config and whether `currentProcess`
is non-null. -/
structure EngineState where
  voiceConfig : VoiceConfig
  currentProcess : Bool
deriving DecidableEq, Repr

namespace TTSEngine

/-- `new TTSEngine(initialConfig)`: stores a copy of the config, no
utterance in flight. -/
def construct (initialConfig : VoiceConfig) : EngineState :=
  { voiceConfig := initialConfig, currentProcess := false }

/-- `TTSEngine.stop` (src/tts-engine.ts lines 116-125): calls
`say.stop()` only when `currentProcess` is non-null, then clears it
(backend errors from the cancellation are swallowed; the model takes
the non-throwing backend path). -/
def stop (st : EngineState) : EngineState × List BackendEvent :=
  if st.currentProcess then
    ({ st with currentProcess := false }, [BackendEvent.sayStop])
  else (st, [])

/-- `Math.round` (round half towards positive infinity). -/
def jsRound (q : ℚ) : ℤ := Int.floor (q + 1/2)

/-- The rate handed to `say.speak`:
`Math.round(this.voiceConfig.speed * 200)` then `options.speed || 1.0`
(an undefined speed gives `NaN`, and both `NaN` and `0` are falsy, so
they fall back to `1.0`). -/
def dispatchedSpeed (speed : Option ℚ) : ℚ :=
  match speed with
  | none => 1
  | some q => let r := jsRound (q * 200); if r = 0 then 1 else (r : ℚ)

/-- The voice handed to `say.speak`: `options.voice || null` (an
undefined or empty name becomes null). -/
def dispatchedVoice (voice : Option String) : Option String :=
  match voice with
  | none => none
  | some s => if s = "" then none else some s

/-- `TTSEngine.speak` (src/tts-engine.ts lines 48-84): return
immediately on blank text; otherwise `this.stop()` first, then dispatch
`say.speak` and hold the returned handle in `currentProcess`. -/
def speak (st : EngineState) (text : String) : EngineState × List BackendEvent :=
  if text.data = [] || (trimStr text.data).length = 0 then (st, [])
  else
    let stopped := stop st
    ({ stopped.1 with currentProcess := true },
      stopped.2 ++
        [BackendEvent.saySpeak text (dispatchedVoice st.voiceConfig.voice)
          (dispatchedSpeed st.voiceConfig.speed)])

/-- `TTSEngine.setVoiceConfig` (src/tts-engine.ts lines 90-92). -/
def setVoiceConfig (st : EngineState) (config : VoiceConfig) : EngineState :=
  { st with voiceConfig := config }

end TTSEngine

/-! ## CopilotIntegration (src/copilot-integration.ts)

The orchestrator registers a single kind of listener
(`handleCopilotSuggestion`), so the registry is modelled as a list of
tags.  The per-listener try/catch of `notifySuggestionListeners` is
modelled generically below for arbitrary listener behaviours. -/

/-- A Copilot suggestion (interface `CopilotSuggestion`). -/
structure CopilotSuggestion where
  text : String
  confidence : ℚ
  language : Option String
deriving DecidableEq, Repr

/-- A listener registered with the integration (the orchestrator only
ever registers its bound `handleCopilotSuggestion`). -/
inductive ListenerTag where
  | handleCopilotSuggestion
deriving DecidableEq, Repr

/-- `CopilotIntegration` instance state. -/
structure CopilotIntegState where
  config : CopilotConfig
  connected : Bool
  listening : Bool
  suggestionListeners : List ListenerTag
deriving DecidableEq, Repr

namespace CopilotIntegration

/-- `new CopilotIntegration()` (src/copilot-integration.ts lines
47-49). -/
def construct : CopilotIntegState :=
  { config := { apiUrl := none, apiKey := none, enabled := false }
    connected := false
    listening := false
    suggestionListeners := [] }

/-- `CopilotIntegration.initialize` (src/copilot-integration.ts lines
55-72): store a copy of the config; if disabled force disconnected;
otherwise run the placeholder handshake, which always succeeds, and set
connected. -/
def init (ci : CopilotIntegState) (config : CopilotConfig) : CopilotIntegState :=
  let ci := { ci with config := config }
  if ¬ci.config.enabled then { ci with connected := false }
  else { ci with connected := true }

/-- `startListening` (src/copilot-integration.ts lines 77-85): raises
when not connected, otherwise sets the listening flag.  The raised
error, if any, is returned. -/
def startListening (ci : CopilotIntegState) : CopilotIntegState × Option String :=
  if ¬ci.connected then (ci, some "Copilot integration not initialized")
  else ({ ci with listening := true }, none)

/-- `stopListening` (src/copilot-integration.ts lines 90-92). -/
def stopListening (ci : CopilotIntegState) : CopilotIntegState :=
  { ci with listening := false }

/-- `onSuggestion` (src/copilot-integration.ts lines 117-119):
`this.suggestionListeners.push(listener)`. -/
def onSuggestion (ci : CopilotIntegState) (l : ListenerTag) : CopilotIntegState :=
  { ci with suggestionListeners := ci.suggestionListeners ++ [l] }

/-- `isConnected` (src/copilot-integration.ts lines 109-111). -/
def isConnected (ci : CopilotIntegState) : Bool := ci.connected

/-- `notifySuggestionListeners` (src/copilot-integration.ts lines
198-206), generically over the registered listeners and their
behaviour: `forEach` over the registry in order, each invocation
wrapped in try/catch; a raised error is caught and logged and the loop
continues.  The result is the invocation trace: each invoked listener
together with the error caught from it, in invocation order. -/
def notifySuggestionListeners {α : Type} (run : α → CopilotSuggestion → Except String Unit)
    (suggestion : CopilotSuggestion) : List α → List (α × Option String)
  | [] => []
  | l :: rest =>
    match run l suggestion with
    | Except.ok _ => (l, none) :: notifySuggestionListeners run suggestion rest
    | Except.error e => (l, some e) :: notifySuggestionListeners run suggestion rest

end CopilotIntegration

/-! ## TTSCopilot orchestrator (src/tts-copilot.ts) -/

/-- Orchestrator instance state: the config store, the engine, the
copilot integration, and the lifecycle flag. -/
structure TTSCopilotState where
  config : AppConfig
  engine : EngineState
  copilot : CopilotIntegState
  isRunning : Bool
deriving DecidableEq, Repr

namespace TTSCopilot

/-- `new TTSCopilot(initialConfig)` (src/tts-copilot.ts lines 15-21). -/
def construct (initialConfig : Option AppConfigPatch) : TTSCopilotState :=
  let cfg := ConfigManager.construct initialConfig
  { config := cfg
    engine := TTSEngine.construct cfg.voice
    copilot := CopilotIntegration.construct
    isRunning := false }

/-- `TTSCopilot.start` (src/tts-copilot.ts lines 44-60): early return
when already running; otherwise set the flag and, when copilot and
real-time are both enabled, register the suggestion handler and start
listening (whose error, if any, propagates). -/
def start (s : TTSCopilotState) : TTSCopilotState × Option String :=
  if s.isRunning then (s, none)
  else
    let s := { s with isRunning := true }
    if s.config.copilot.enabled && s.config.realTimeEnabled then
      let ci := CopilotIntegration.onSuggestion s.copilot
        ListenerTag.handleCopilotSuggestion
      let started := CopilotIntegration.startListening ci
      ({ s with copilot := started.1 }, started.2)
    else (s, none)

/-- `TTSCopilot.stop` (src/tts-copilot.ts lines 65-77): early return
when not running; otherwise clear the flag, stop the engine and stop
listening.  The backend events of the engine stop are returned. -/
def stop (s : TTSCopilotState) : TTSCopilotState × List BackendEvent :=
  if ¬s.isRunning then (s, [])
  else
    let stopped := TTSEngine.stop s.engine
    ({ s with isRunning := false
              engine := stopped.1
              copilot := CopilotIntegration.stopListening s.copilot },
      stopped.2)

instance {ε α : Type} [DecidableEq ε] [DecidableEq α] :
    DecidableEq (Except ε α) := fun x y =>
  match x, y with
  | Except.ok a, Except.ok b =>
    if h : a = b then isTrue (by rw [h])
    else isFalse (by intro hh; cases hh; exact h rfl)
  | Except.error a, Except.error b =>
    if h : a = b then isTrue (by rw [h])
    else isFalse (by intro hh; cases hh; exact h rfl)
  | Except.ok _, Except.error _ => isFalse (by intro hh; cases hh)
  | Except.error _, Except.ok _ => isFalse (by intro hh; cases hh)

/-- Result of a `speakText` call: the outcome, the engine state after
the call, the backend events, and whether `ttsEngine.speak` was
invoked. -/
structure SpeakResult where
  result : Except String Unit
  engine : EngineState
  events : List BackendEvent
  engineSpeakInvoked : Bool
deriving DecidableEq, Repr

/-- `TTSCopilot.speakText` (src/tts-copilot.ts lines 83-91): parse the
text, throw when the processed text is not valid for TTS, otherwise
forward the processed text to the engine. -/
def speakText (engine : EngineState) (text : String) : SpeakResult :=
  let processedText := parseText text
  if ¬isValidForTTS processedText then
    { result := Except.error "Text is not suitable for TTS conversion"
      engine := engine
      events := []
      engineSpeakInvoked := false }
  else
    let spoken := TTSEngine.speak engine processedText
    { result := Except.ok ()
      engine := spoken.1
      events := spoken.2
      engineSpeakInvoked := true }

/-- `TTSCopilot.updateCopilotConfig` (src/tts-copilot.ts lines
113-121): delegate the merge to the config store; re-initialize the
integration only when the merged config is enabled.  The returned flag
records whether `copilotIntegration.initialize` was invoked. -/
def updateCopilotConfig (s : TTSCopilotState) (p : CopilotPatch) :
    TTSCopilotState × Bool :=
  let cfg := ConfigManager.updateCopilotConfig s.config p
  if cfg.copilot.enabled then
    ({ s with config := cfg
              copilot := CopilotIntegration.init s.copilot cfg.copilot }, true)
  else ({ s with config := cfg }, false)

/-- `TTSCopilot.isCopilotConnected` (src/tts-copilot.ts lines
157-159). -/
def isCopilotConnected (s : TTSCopilotState) : Bool :=
  CopilotIntegration.isConnected s.copilot

end TTSCopilot

/-! ## Shape invariants of the cleaning pipeline

After `replace(/\s+/g, " ")` every whitespace character of the text is
a single space not adjacent to another whitespace character; after
`trim` the ends are not whitespace either.  On such texts every stage
of the pipeline is the identity, which is what the idempotence analysis
of `parseText` rests on. -/

/-- The head, if any, is not whitespace. -/
def headNotWs : List Char → Prop
  | [] => True
  | c :: _ => jsWhitespace c = false

/-- The last character, if any, is not whitespace. -/
def lastNotWs : List Char → Prop
  | [] => True
  | [c] => jsWhitespace c = false
  | _ :: rest => lastNotWs rest

/-- No two adjacent characters are both whitespace. -/
def noWsPair : List Char → Prop
  | [] => True
  | [_] => True
  | a :: b :: rest =>
    ¬(jsWhitespace a = true ∧ jsWhitespace b = true) ∧ noWsPair (b :: rest)

/-- Every whitespace character is the plain space. -/
def wsOnlySpace (l : List Char) : Prop :=
  ∀ c ∈ l, jsWhitespace c = true → c = ' '

theorem noWsPair_tail {c : Char} {t : List Char} (h : noWsPair (c :: t)) :
    noWsPair t := by
  cases t with
  | nil => trivial
  | cons d r => exact h.2

theorem noWsPair_cons_of_head {c : Char} {t : List Char}
    (hc : jsWhitespace c = false) (ht : noWsPair t) : noWsPair (c :: t) := by
  cases t with
  | nil => trivial
  | cons d r =>
    refine ⟨fun hp => ?_, ht⟩
    rw [hc] at hp
    exact Bool.false_ne_true hp.1

theorem noWsPair_cons_space {t : List Char} (hh : headNotWs t)
    (ht : noWsPair t) : noWsPair (' ' :: t) := by
  cases t with
  | nil => trivial
  | cons d r =>
    refine ⟨fun hp => ?_, ht⟩
    have hd : jsWhitespace d = false := hh
    rw [hd] at hp
    exact Bool.false_ne_true hp.2

theorem wsOnlySpace_tail {c : Char} {t : List Char}
    (h : wsOnlySpace (c :: t)) : wsOnlySpace t :=
  fun d hd => h d (List.mem_cons_of_mem c hd)

/-! ### Properties of `collapseAux` -/

theorem collapseAux_props (l : List Char) : ∀ b : Bool,
    wsOnlySpace (collapseAux b l) ∧ noWsPair (collapseAux b l) ∧
      (b = true → headNotWs (collapseAux b l)) := by
  induction l with
  | nil =>
    intro b
    exact ⟨fun c hc => absurd hc (List.not_mem_nil c), trivial, fun _ => trivial⟩
  | cons c rest ih =>
    intro b
    by_cases hc : jsWhitespace c = true
    · cases b with
      | true =>
        simp only [collapseAux, hc, if_true]
        exact ⟨(ih true).1, (ih true).2.1, fun _ => (ih true).2.2 rfl⟩
      | false =>
        simp only [collapseAux, hc, if_true, if_false]
        refine ⟨?_, ?_, ?_⟩
        · intro d hd hws
          rcases List.mem_cons.mp hd with h | h
          · exact h
          · exact (ih true).1 d h hws
        · exact noWsPair_cons_space ((ih true).2.2 rfl) (ih true).2.1
        · intro h; cases h
    · have hc' : jsWhitespace c = false := by
        cases h : jsWhitespace c
        · rfl
        · exact absurd h hc
      simp only [collapseAux, hc, if_false]
      refine ⟨?_, ?_, ?_⟩
      · intro d hd hws
        rcases List.mem_cons.mp hd with h | h
        · subst h; exact absurd hws hc
        · exact (ih false).1 d h hws
      · exact noWsPair_cons_of_head hc' (ih false).2.1
      · intro _; exact hc'

theorem collapseAux_fixed (l : List Char) : ∀ b : Bool,
    wsOnlySpace l → noWsPair l → (b = true → headNotWs l) →
    collapseAux b l = l := by
  induction l with
  | nil => intro b _ _ _; rfl
  | cons c rest ih =>
    intro b hws hnp hhd
    by_cases hc : jsWhitespace c = true
    · cases b with
      | true => exact absurd hc (by simpa [headNotWs] using hhd rfl)
      | false =>
        have hsp : c = ' ' := hws c (List.mem_cons_self c rest) hc
        simp only [collapseAux, hc, if_true, if_false]
        have hrest : collapseAux true rest = rest := by
          apply ih true (wsOnlySpace_tail hws) (noWsPair_tail hnp)
          intro _
          cases rest with
          | nil => trivial
          | cons d r =>
            have := hnp.1
            show jsWhitespace d = false
            cases h : jsWhitespace d
            · rfl
            · exact absurd ⟨hc, h⟩ this
        rw [hrest, hsp]
        simp
    · simp only [collapseAux, hc, if_false]
      rw [ih false (wsOnlySpace_tail hws) (noWsPair_tail hnp) (fun h => by cases h)]
      simp

/-! ### Properties of `dropWhile` and `dropTrailingWs` -/

theorem headNotWs_dropWhile (l : List Char) :
    headNotWs (l.dropWhile jsWhitespace) := by
  induction l with
  | nil => trivial
  | cons c rest ih =>
    by_cases hc : jsWhitespace c = true
    · rw [List.dropWhile_cons_of_pos hc]; exact ih
    · rw [List.dropWhile_cons_of_neg hc]
      show jsWhitespace c = false
      cases h : jsWhitespace c
      · rfl
      · exact absurd h hc

theorem noWsPair_dropWhile {l : List Char} (h : noWsPair l) :
    noWsPair (l.dropWhile jsWhitespace) := by
  induction l with
  | nil => trivial
  | cons c rest ih =>
    by_cases hc : jsWhitespace c = true
    · rw [List.dropWhile_cons_of_pos hc]; exact ih (noWsPair_tail h)
    · rw [List.dropWhile_cons_of_neg hc]; exact h

theorem wsOnlySpace_dropWhile {l : List Char} (h : wsOnlySpace l) :
    wsOnlySpace (l.dropWhile jsWhitespace) := by
  induction l with
  | nil => exact h
  | cons c rest ih =>
    by_cases hc : jsWhitespace c = true
    · rw [List.dropWhile_cons_of_pos hc]; exact ih (wsOnlySpace_tail h)
    · rw [List.dropWhile_cons_of_neg hc]; exact h

theorem mem_dropWhile {c : Char} {l : List Char}
    (h : c ∈ l.dropWhile jsWhitespace) : c ∈ l := by
  induction l with
  | nil => exact h
  | cons d rest ih =>
    by_cases hd : jsWhitespace d = true
    · rw [List.dropWhile_cons_of_pos hd] at h
      exact List.mem_cons_of_mem d (ih h)
    · rw [List.dropWhile_cons_of_neg hd] at h
      exact h

/-- Unfolding equation for `dropTrailingWs` on a cons. -/
theorem dtw_cons (c : Char) (rest : List Char) :
    dropTrailingWs (c :: rest) =
      match dropTrailingWs rest with
      | [] => if jsWhitespace c then [] else [c]
      | r => c :: r := rfl

theorem headNotWs_dtw {l : List Char} (h : headNotWs l) :
    headNotWs (dropTrailingWs l) := by
  cases l with
  | nil => trivial
  | cons c rest =>
    rw [dtw_cons]
    cases dropTrailingWs rest with
    | nil =>
      by_cases hc : jsWhitespace c = true
      · rw [if_pos hc]; trivial
      · rw [if_neg hc]; exact h
    | cons d r => exact h

theorem mem_dtw {c : Char} : ∀ {l : List Char}, c ∈ dropTrailingWs l → c ∈ l := by
  intro l
  induction l with
  | nil => exact fun h => h
  | cons d rest ih =>
    rw [dtw_cons]
    cases hrest : dropTrailingWs rest with
    | nil =>
      by_cases hd : jsWhitespace d = true
      · rw [if_pos hd]; intro h; cases h
      · rw [if_neg hd]
        intro h
        rw [List.mem_singleton.mp h]
        exact List.mem_cons_self d rest
    | cons e r =>
      intro h
      rcases List.mem_cons.mp h with h | h
      · rw [h]; exact List.mem_cons_self d rest
      · exact List.mem_cons_of_mem d (ih (hrest ▸ h))

theorem wsOnlySpace_dtw {l : List Char} (h : wsOnlySpace l) :
    wsOnlySpace (dropTrailingWs l) :=
  fun c hc hws => h c (mem_dtw hc) hws

/-- When `dropTrailingWs` of a list is a cons, the list is a cons with
the same head. -/
theorem dtw_head_eq {l : List Char} {d : Char} {r : List Char}
    (h : dropTrailingWs l = d :: r) : ∃ r', l = d :: r' := by
  cases l with
  | nil => cases h
  | cons c rest =>
    rw [dtw_cons] at h
    revert h
    cases dropTrailingWs rest with
    | nil =>
      by_cases hc : jsWhitespace c = true
      · rw [if_pos hc]; intro h; cases h
      · rw [if_neg hc]
        intro h
        injection h with h1 _
        exact ⟨rest, by rw [h1]⟩
    | cons e r' =>
      intro h
      injection h with h1 _
      exact ⟨rest, by rw [h1]⟩

theorem noWsPair_dtw {l : List Char} (h : noWsPair l) :
    noWsPair (dropTrailingWs l) := by
  induction l with
  | nil => trivial
  | cons c rest ih =>
    rw [dtw_cons]
    cases hrest : dropTrailingWs rest with
    | nil =>
      by_cases hc : jsWhitespace c = true
      · rw [if_pos hc]; trivial
      · rw [if_neg hc]; trivial
    | cons d r =>
      have htail : noWsPair (d :: r) := hrest ▸ ih (noWsPair_tail h)
      rcases dtw_head_eq hrest with ⟨r', hr'⟩
      refine ⟨fun hp => ?_, htail⟩
      rw [hr'] at h
      exact h.1 hp

theorem lastNotWs_dtw (l : List Char) : lastNotWs (dropTrailingWs l) := by
  induction l with
  | nil => trivial
  | cons c rest ih =>
    rw [dtw_cons]
    cases hrest : dropTrailingWs rest with
    | nil =>
      by_cases hc : jsWhitespace c = true
      · rw [if_pos hc]; trivial
      · rw [if_neg hc]
        show jsWhitespace c = false
        cases h : jsWhitespace c
        · rfl
        · exact absurd h hc
    | cons d r =>
      show lastNotWs (d :: r)
      exact hrest ▸ ih

theorem dtw_fixed : ∀ {l : List Char}, lastNotWs l → dropTrailingWs l = l := by
  intro l
  induction l with
  | nil => intro _; rfl
  | cons c rest ih =>
    intro h
    rw [dtw_cons]
    cases rest with
    | nil =>
      have hc : jsWhitespace c = false := h
      show (if jsWhitespace c then [] else [c]) = [c]
      rw [if_neg (by rw [hc]; exact Bool.false_ne_true)]
    | cons d r =>
      have htail : dropTrailingWs (d :: r) = d :: r := ih h
      rw [htail]

/-! ### Properties of `trimStr` -/

theorem trimStr_fixed {l : List Char} (hh : headNotWs l) (hl : lastNotWs l) :
    trimStr l = l := by
  unfold trimStr
  have hdw : l.dropWhile jsWhitespace = l := by
    cases l with
    | nil => rfl
    | cons c rest => exact List.dropWhile_cons_of_neg (by simp [show jsWhitespace c = false from hh])
  rw [hdw]
  exact dtw_fixed hl

theorem mem_trimStr {c : Char} {l : List Char} (h : c ∈ trimStr l) : c ∈ l :=
  mem_dropWhile (mem_dtw h)

/-- The central fixed-point fact: one `collapse`-then-`trim` pass is
idempotent. -/
theorem trim_collapse_fixed (w : List Char) :
    trimStr (collapseWs (trimStr (collapseWs w))) = trimStr (collapseWs w) := by
  have hu := collapseAux_props w false
  set u := collapseWs w with hudef
  have hwsu : wsOnlySpace u := hu.1
  have hnpu : noWsPair u := hu.2.1
  set v := trimStr u with hvdef
  have hwsv : wsOnlySpace v := wsOnlySpace_dtw (wsOnlySpace_dropWhile hwsu)
  have hnpv : noWsPair v := noWsPair_dtw (noWsPair_dropWhile hnpu)
  have hhv : headNotWs v := headNotWs_dtw (headNotWs_dropWhile u)
  have hlv : lastNotWs v := lastNotWs_dtw (u.dropWhile jsWhitespace)
  have hcv : collapseWs v = v := collapseAux_fixed v false hwsv hnpv (fun h => by cases h)
  rw [hcv]
  exact trimStr_fixed hhv hlv

/-! ### The stripping stages are the identity on backquote-free text -/

theorem stripFences_of_no_bq : ∀ {l : List Char}, backquote ∉ l →
    stripFences l = l := by
  intro l
  induction l with
  | nil => intro _; rfl
  | cons a t ih =>
    intro h
    have ha : a ≠ backquote := fun he => h (he ▸ List.mem_cons_self a t)
    have ht : backquote ∉ t := fun hm => h (List.mem_cons_of_mem a hm)
    cases t with
    | nil => rfl
    | cons b t' =>
      cases t' with
      | nil => rfl
      | cons c rest =>
        show stripFencesAux none (a :: b :: c :: rest) = _
        rw [show stripFencesAux none (a :: b :: c :: rest) =
              if a = backquote ∧ b = backquote ∧ c = backquote then
                stripFencesAux (some []) rest
              else a :: stripFencesAux none (b :: c :: rest) from rfl]
        rw [if_neg (fun hand => ha hand.1)]
        show a :: stripFences (b :: c :: rest) = _
        rw [ih ht]

theorem stripInline_of_no_bq : ∀ {l : List Char}, backquote ∉ l →
    stripInline l = l := by
  intro l
  induction l with
  | nil => intro _; rfl
  | cons c t ih =>
    intro h
    have hc : c ≠ backquote := fun he => h (he ▸ List.mem_cons_self c t)
    have ht : backquote ∉ t := fun hm => h (List.mem_cons_of_mem c hm)
    show stripInlineAux none (c :: t) = _
    rw [show stripInlineAux none (c :: t) =
          if c = backquote then stripInlineAux (some []) t
          else c :: stripInlineAux none t from rfl]
    rw [if_neg hc]
    show c :: stripInline t = _
    rw [ih ht]

/-! ### Character-level facts about the allow-set -/

theorem allowedChar_space : allowedChar ' ' = true := by decide

theorem allowedChar_bq : allowedChar backquote = false := by decide

/-- A list of allowed characters contains no backquote. -/
theorem no_bq_of_allOk {l : List Char} (h : ∀ c ∈ l, allowedChar c = true) :
    backquote ∉ l := fun hm => by
  have := h backquote hm
  rw [allowedChar_bq] at this
  exact Bool.false_ne_true this

theorem mem_collapseAux {c : Char} :
    ∀ {l : List Char} {b : Bool}, c ∈ collapseAux b l → c = ' ' ∨ c ∈ l := by
  intro l
  induction l with
  | nil => intro b h; cases h
  | cons d rest ih =>
    intro b h
    by_cases hd : jsWhitespace d = true
    · cases b with
      | true =>
        simp only [collapseAux, hd, if_true] at h
        rcases ih h with h | h
        · exact Or.inl h
        · exact Or.inr (List.mem_cons_of_mem d h)
      | false =>
        simp only [collapseAux, hd, if_true, if_false] at h
        rcases List.mem_cons.mp h with h | h
        · exact Or.inl h
        · rcases ih h with h | h
          · exact Or.inl h
          · exact Or.inr (List.mem_cons_of_mem d h)
    · simp only [collapseAux, hd, if_false] at h
      rcases List.mem_cons.mp h with h | h
      · exact Or.inr (h ▸ List.mem_cons_self d rest)
      · rcases ih h with h | h
        · exact Or.inl h
        · exact Or.inr (List.mem_cons_of_mem d h)

/-- Characters of `trimStr (collapseWs z)` are spaces or characters of
`z`. -/
theorem mem_trim_collapse {c : Char} {z : List Char}
    (h : c ∈ trimStr (collapseWs z)) : c = ' ' ∨ c ∈ z :=
  mem_collapseAux (mem_trimStr h)

/-! ### The pipeline on already-filtered text -/

/-- Every character of a pipeline output is in the allow-set. -/
theorem pipeline_allOk (l : List Char) :
    ∀ c ∈ parseTextPipeline l, allowedChar c = true := by
  intro c hc
  exact List.of_mem_filter hc

/-- On text made of allowed characters only, the stripping stages and
the final filter are the identity, so the pipeline is just
collapse-then-trim. -/
theorem pipeline_of_allOk {z : List Char}
    (h : ∀ c ∈ z, allowedChar c = true) :
    parseTextPipeline z = trimStr (collapseWs z) := by
  unfold parseTextPipeline filterAllowed
  rw [stripFences_of_no_bq (no_bq_of_allOk h), stripInline_of_no_bq (no_bq_of_allOk h)]
  apply List.filter_eq_self.mpr
  intro c hc
  rcases mem_trim_collapse hc with h1 | h1
  · rw [h1]; exact allowedChar_space
  · exact h c h1

/-- On text made of allowed characters only, a second pipeline pass
changes nothing more. -/
theorem pipeline_fixed_of_allOk {z : List Char}
    (h : ∀ c ∈ z, allowedChar c = true) :
    parseTextPipeline (parseTextPipeline z) = parseTextPipeline z := by
  have hz : parseTextPipeline z = trimStr (collapseWs z) := pipeline_of_allOk h
  have hv : ∀ c ∈ parseTextPipeline z, allowedChar c = true := pipeline_allOk z
  rw [pipeline_of_allOk hv, hz, trim_collapse_fixed]

/-- The falsy-input guard of `parseText` is redundant: the pipeline
already maps the empty list to itself. -/
theorem parseTextL_eq_pipeline (l : List Char) :
    parseTextL l = parseTextPipeline l := by
  unfold parseTextL
  by_cases h : l = []
  · rw [if_pos h, h]; rfl
  · rw [if_neg h]

/-! ### Lemmas about `splitWs` (for `isValidForTTS`) -/

theorem filter_cons_ne_nil {α : Type} (p : α → Bool) (x : α) {xs : List α}
    (h : xs.filter p ≠ []) : (x :: xs).filter p ≠ [] := by
  rw [List.filter_cons]
  by_cases hx : p x = true
  · rw [if_pos hx]; exact List.cons_ne_nil x (xs.filter p)
  · rw [if_neg hx]; exact h

/-- When some remaining character (or buffered character) is not
whitespace, the split produces a nonempty word. -/
theorem splitWsAux_has_word : ∀ (l cur : List Char) (b : Bool),
    (b = true → cur = []) →
    ((∃ c ∈ cur, jsWhitespace c = false) ∨ (∃ c ∈ l, jsWhitespace c = false)) →
    (splitWsAux b cur l).filter (fun w => w.length > 0) ≠ [] := by
  intro l
  induction l with
  | nil =>
    intro cur b _ hex
    rcases hex with ⟨c, hc, _⟩ | ⟨c, hc, _⟩
    · show (List.filter _ [cur.reverse]) ≠ []
      have hcur : cur ≠ [] := fun he => by rw [he] at hc; cases hc
      have hlen : cur.reverse.length > 0 := by
        rw [List.length_reverse]
        exact List.length_pos.mpr hcur
      rw [List.filter_cons, if_pos (by simpa using hlen)]
      exact List.cons_ne_nil _ _
    · cases hc
  | cons c rest ih =>
    intro cur b hb hex
    have hrest : ∀ d, d ∈ c :: rest → jsWhitespace d = false →
        jsWhitespace c = true → ∃ e ∈ rest, jsWhitespace e = false := by
      intro d hd hdw hc
      rcases List.mem_cons.mp hd with h | h
      · rw [h, hc] at hdw; cases hdw
      · exact ⟨d, h, hdw⟩
    by_cases hc : jsWhitespace c = true
    · cases b with
      | true =>
        simp only [splitWsAux, hc, if_true]
        apply ih [] true (fun _ => rfl)
        right
        rcases hex with ⟨d, hd, _⟩ | ⟨d, hd, hdw⟩
        · rw [hb rfl] at hd; cases hd
        · exact hrest d hd hdw hc
      | false =>
        simp only [splitWsAux, hc, if_true, if_false]
        rw [if_neg Bool.false_ne_true]
        rcases hex with ⟨d, hd, hdw⟩ | ⟨d, hd, hdw⟩
        · have hcur : cur ≠ [] := fun he => by rw [he] at hd; cases hd
          have hlen : cur.reverse.length > 0 := by
            rw [List.length_reverse]
            exact List.length_pos.mpr hcur
          rw [List.filter_cons, if_pos (by simpa using hlen)]
          exact List.cons_ne_nil _ _
        · exact filter_cons_ne_nil _ _
            (ih [] true (fun _ => rfl) (Or.inr (hrest d hd hdw hc)))
    · simp only [splitWsAux, hc, if_false]
      apply ih (c :: cur) false (fun h => by cases h)
      left
      refine ⟨c, List.mem_cons_self c cur, ?_⟩
      cases h : jsWhitespace c
      · rfl
      · exact absurd h hc

/-- Blank text is exactly text of whitespace characters only. -/
theorem trimStr_eq_nil_of_all_ws {l : List Char}
    (h : ∀ c ∈ l, jsWhitespace c = true) : trimStr l = [] := by
  unfold trimStr
  rw [List.dropWhile_eq_nil_iff.mpr (by intro x hx; exact h x hx)]
  rfl

theorem exists_not_ws_of_trim_ne_nil {l : List Char} (h : trimStr l ≠ []) :
    ∃ c ∈ l, jsWhitespace c = false := by
  by_contra hall
  push_neg at hall
  apply h
  apply trimStr_eq_nil_of_all_ws
  intro c hc
  have := hall c hc
  cases hb : jsWhitespace c
  · exact absurd hb this
  · rfl

/-! ### The validation condition of `validateVoiceConfig` -/

theorem fieldOutOfRange_iff (x : Option ℚ) (lo hi : ℚ) :
    fieldOutOfRange x lo hi ↔ (jsltB x lo || jsgtB x hi) = true := by
  cases x with
  | none => simp [fieldOutOfRange, jsltB, jsgtB]
  | some v => simp [fieldOutOfRange, jsltB, jsgtB]

/-- `validateVoiceConfig` raises exactly when some defined field is out
of its documented range. -/
theorem validate_isSome_iff (v : VoiceConfig) :
    (ConfigManager.validateVoiceConfig v).isSome = true ↔ voiceOutOfRange v := by
  unfold ConfigManager.validateVoiceConfig voiceOutOfRange
  rw [fieldOutOfRange_iff, fieldOutOfRange_iff, fieldOutOfRange_iff]
  cases h1 : (jsltB v.pitch 0 || jsgtB v.pitch 2) <;>
    cases h2 : (jsltB v.speed (1/10) || jsgtB v.speed 10) <;>
      cases h3 : (jsltB v.volume 0 || jsgtB v.volume 1) <;>
        simp [h1, h2, h3]

/-! ## Claims -/

/-- Claim C1, counterexample to the stated form: starting from the
default store, the update `{ pitch: 3 }` merges to an out-of-range
voice config; `updateVoiceConfig` does raise, but the config observed
via `getConfig` after the failed call is the merged one, not the config
observed before the call. -/
theorem c1_reject_not_atomic_counterexample :
    (ConfigManager.updateVoiceConfig DEFAULT_CONFIG
        { pitch := some 3 }).2.isSome = true ∧
    ConfigManager.getConfig
        (ConfigManager.updateVoiceConfig DEFAULT_CONFIG { pitch := some 3 }).1 ≠
      ConfigManager.getConfig DEFAULT_CONFIG := by decide

/-- Claim C1, amended: for every stored config and partial voice update
whose merged result has a field out of range, `updateVoiceConfig` fails
with an error, but the store is left holding the merged (invalid) voice
config — the assignment happens before validation, so the update is not
reject-atomic. -/
theorem c1_update_fails_but_merged_config_persists
    (config : AppConfig) (p : VoicePatch)
    (h : voiceOutOfRange (ConfigManager.mergeVoice config.voice p)) :
    (ConfigManager.updateVoiceConfig config p).2.isSome = true ∧
    (ConfigManager.updateVoiceConfig config p).1 =
      { config with voice := ConfigManager.mergeVoice config.voice p } := by
  exact ⟨(validate_isSome_iff _).mpr h, rfl⟩

/-- Claim C1, witness: the amended theorem applied to the default store
and the update `{ pitch: 3 }`. -/
theorem c1_update_fails_but_merged_config_persists_witness :
    voiceOutOfRange
      (ConfigManager.mergeVoice DEFAULT_CONFIG.voice { pitch := some 3 }) ∧
    (ConfigManager.updateVoiceConfig DEFAULT_CONFIG
      { pitch := some 3 }).2.isSome = true :=
  ⟨by decide,
    (c1_update_fails_but_merged_config_persists DEFAULT_CONFIG
      { pitch := some 3 } (by decide)).1⟩

/-- Claim C2, counterexample to the stated form: on a freshly
constructed manager the snapshot returned by `getConfig` holds the very
same voice reference as the internal state, and writing `pitch` through
the snapshot changes the pitch the store observes from 1 to 2 — the
returned value is not a deep copy sharing no part with internal
state. -/
theorem c2_deep_copy_counterexample :
    defaultManagerH.getConfigH.voiceAddr = defaultManagerH.cfg.voiceAddr ∧
    readStoredPitch defaultManagerH = some 1 ∧
    readStoredPitch
      { defaultManagerH with
          heap := writeVoicePitchAt defaultManagerH.heap
            defaultManagerH.getConfigH.voiceAddr 2 } = some 2 := by decide

/-- Claim C2, amended: `getConfig` returns a shallow copy — a fresh
top-level object whose `voice` and `copilot` fields are the same
references as the internal state, so mutating a nested field of the
returned value changes the stored configuration. -/
theorem c2_getConfig_shallow_copy_aliases_nested
    (m : ConfigManagerH) (q : ℚ)
    (h : m.cfg.voiceAddr < m.heap.voiceCells.length) :
    (m.getConfigH.voiceAddr = m.cfg.voiceAddr ∧
      m.getConfigH.copilotAddr = m.cfg.copilotAddr) ∧
    readStoredPitch
      { m with heap := writeVoicePitchAt m.heap m.getConfigH.voiceAddr q } =
        some q := by
  refine ⟨⟨rfl, rfl⟩, ?_⟩
  show (((m.heap.voiceCells.set m.cfg.voiceAddr _).getD m.cfg.voiceAddr _)).pitch = some q
  rw [List.getD_eq_getElem?_getD, List.getElem?_set_eq_of_lt _ h]
  rfl

/-- Claim C2, witness: the amended theorem applied to the default
manager. -/
theorem c2_getConfig_shallow_copy_aliases_nested_witness :
    defaultManagerH.cfg.voiceAddr < defaultManagerH.heap.voiceCells.length ∧
    readStoredPitch
      { defaultManagerH with
          heap := writeVoicePitchAt defaultManagerH.heap
            defaultManagerH.getConfigH.voiceAddr 2 } = some 2 :=
  ⟨by decide,
    (c2_getConfig_shallow_copy_aliases_nested defaultManagerH 2 (by decide)).2⟩

/-- Claim C3, counterexample to the stated form: `parseText` is not
idempotent.  On "a @ b" the at-sign is removed after whitespace
collapsing, leaving the double space "a  b", which a second pass
collapses to "a b". -/
theorem c3_normalize_not_idempotent_counterexample :
    parseText (parseText (String.mk ['a', ' ', '@', ' ', 'b'])) ≠
      parseText (String.mk ['a', ' ', '@', ' ', 'b']) := by decide

/-- Claim C3, amended: one `parseText` pass need not be a fixed point
(character filtering can reintroduce whitespace runs and boundary
spaces), but two passes reach one: for every string x,
`parseText (parseText (parseText x)) = parseText (parseText x)`. -/
theorem c3_normalize_twice_is_fixed_point (s : String) :
    parseText (parseText (parseText s)) = parseText (parseText s) := by
  show String.mk (parseTextL (parseTextL (parseTextL s.data))) =
    String.mk (parseTextL (parseTextL s.data))
  rw [parseTextL_eq_pipeline, parseTextL_eq_pipeline, parseTextL_eq_pipeline]
  rw [pipeline_fixed_of_allOk (pipeline_allOk s.data)]

/-- Claim C4: `isValidForTTS` returns false exactly when the trimmed
text is empty or the raw text is longer than 1000 characters; in
particular 1000 copies of a non-blank character pass and 1001 fail. -/
theorem c4_isSpeakable_false_iff :
    (∀ s : String,
        isValidForTTS s = false ↔
          (trimStr s.data = [] ∨ s.data.length > 1000)) ∧
    isValidForTTS (String.mk (List.replicate 1000 'a')) = true ∧
    isValidForTTS (String.mk (List.replicate 1001 'a')) = false := by
  refine ⟨?_, by set_option maxRecDepth 10000 in decide,
    by set_option maxRecDepth 10000 in decide⟩
  intro s
  unfold isValidForTTS
  by_cases htrim : trimStr s.data = []
  · rw [if_pos (by simp [htrim])]
    simp [htrim]
  · have hdata : s.data ≠ [] := by
      intro h0
      exact htrim (by rw [h0]; rfl)
    rw [if_neg (by simp [htrim, hdata, List.length_eq_zero])]
    by_cases hlen : s.data.length > 1000
    · rw [if_pos (by simpa using hlen)]
      simp only [eq_self_iff_true, true_iff]
      exact Or.inr hlen
    · rw [if_neg (by simpa using hlen)]
      have hword : ((splitWs s.data).filter (fun w => w.length > 0)).length > 0 := by
        apply List.length_pos.mpr
        exact splitWsAux_has_word s.data [] false (fun h => by cases h)
          (Or.inr (exists_not_ws_of_trim_ne_nil htrim))
      simp only [decide_eq_false_iff_not, not_lt, iff_iff_implies_and_implies]
      constructor
      · intro hno
        exact absurd hword (by simpa using hno)
      · intro hr
        rcases hr with hr | hr
        · exact absurd hr htrim
        · exact absurd hr hlen

/-- `speakText` on text whose processed form fails the validity check:
the unspeakable-text error is raised before anything reaches the
engine. -/
theorem speakText_invalid {engine : EngineState} {t : String}
    (h : isValidForTTS (parseText t) = false) :
    TTSCopilot.speakText engine t =
      { result := Except.error "Text is not suitable for TTS conversion"
        engine := engine
        events := []
        engineSpeakInvoked := false } := by
  show (if ¬isValidForTTS (parseText t) = true then _ else _) = _
  rw [h]
  rw [if_pos Bool.false_ne_true]

/-- Claim C5: `speakText` on the empty string and on 1001 copies of the
letter a both fail with the unspeakable-text error, and in both cases
no call reaches the speech backend: `ttsEngine.speak` is never invoked
and no backend event is emitted. -/
theorem c5_speakText_rejects_before_backend (engine : EngineState) :
    ((TTSCopilot.speakText engine "").result =
        Except.error "Text is not suitable for TTS conversion" ∧
      (TTSCopilot.speakText engine "").engineSpeakInvoked = false ∧
      (TTSCopilot.speakText engine "").events = []) ∧
    ((TTSCopilot.speakText engine (String.mk (List.replicate 1001 'a'))).result =
        Except.error "Text is not suitable for TTS conversion" ∧
      (TTSCopilot.speakText engine
          (String.mk (List.replicate 1001 'a'))).engineSpeakInvoked = false ∧
      (TTSCopilot.speakText engine
          (String.mk (List.replicate 1001 'a'))).events = []) := by
  have h1 : isValidForTTS (parseText "") = false := by decide
  have h2 : isValidForTTS (parseText (String.mk (List.replicate 1001 'a'))) = false := by
    set_option maxRecDepth 10000 in decide
  rw [speakText_invalid h1, speakText_invalid h2]
  exact ⟨⟨rfl, rfl, rfl⟩, ⟨rfl, rfl, rfl⟩⟩

/-- Claim C6: when `speak` is issued while a prior utterance is still
unresolved (`currentProcess` non-null) and the text is not blank, the
backend cancellation `say.stop` is dispatched strictly before the new
`say.speak` request, and afterwards exactly one utterance is again in
flight. -/
theorem c6_speak_cancels_before_dispatch (st : EngineState) (text : String)
    (hbusy : st.currentProcess = true) (hnb : trimStr text.data ≠ []) :
    (TTSEngine.speak st text).2 =
      [BackendEvent.sayStop,
        BackendEvent.saySpeak text (TTSEngine.dispatchedVoice st.voiceConfig.voice)
          (TTSEngine.dispatchedSpeed st.voiceConfig.speed)] ∧
    (TTSEngine.speak st text).1.currentProcess = true := by
  have hdata : text.data ≠ [] := by
    intro h0
    exact hnb (by rw [h0]; rfl)
  have hlen : (trimStr text.data).length ≠ 0 := by
    simpa [List.length_eq_zero] using hnb
  unfold TTSEngine.speak TTSEngine.stop
  rw [if_neg (by simp [hdata, hlen])]
  rw [if_pos hbusy]
  exact ⟨rfl, rfl⟩

/-- Claim C6, witness: a busy engine holding the default voice config,
spoken the text "hi". -/
theorem c6_speak_cancels_before_dispatch_witness :
    ({ voiceConfig := DEFAULT_CONFIG.voice, currentProcess := true } :
        EngineState).currentProcess = true ∧
    trimStr ("hi" : String).data ≠ [] ∧
    (TTSEngine.speak
        { voiceConfig := DEFAULT_CONFIG.voice, currentProcess := true } "hi").2 =
      [BackendEvent.sayStop,
        BackendEvent.saySpeak "hi"
          (TTSEngine.dispatchedVoice DEFAULT_CONFIG.voice.voice)
          (TTSEngine.dispatchedSpeed DEFAULT_CONFIG.voice.speed)] :=
  ⟨rfl, by decide,
    (c6_speak_cancels_before_dispatch
      { voiceConfig := DEFAULT_CONFIG.voice, currentProcess := true } "hi"
      rfl (by decide)).1⟩

/-- Claim C7: the orchestrator starts Idle (`isRunning = false`);
`start` always leaves it Running and is an exact no-op when already
Running; `stop` always leaves it Idle and is an exact no-op when
already Idle; the lifecycle flag is a boolean, so the state is always
exactly one of Idle and Running. -/
theorem c7_lifecycle_idempotent :
    (∀ init, (TTSCopilot.construct init).isRunning = false) ∧
    (∀ s, (TTSCopilot.start s).1.isRunning = true) ∧
    (∀ s, s.isRunning = true → TTSCopilot.start s = (s, none)) ∧
    (∀ s, (TTSCopilot.stop s).1.isRunning = false) ∧
    (∀ s, s.isRunning = false → TTSCopilot.stop s = (s, [])) ∧
    (∀ s : TTSCopilotState, s.isRunning = true ∨ s.isRunning = false) := by
  refine ⟨fun _ => rfl, ?_, ?_, ?_, ?_, fun s => ?_⟩
  · intro s
    unfold TTSCopilot.start
    by_cases h : s.isRunning = true
    · rw [if_pos h]; exact h
    · rw [if_neg h]
      by_cases h2 : (s.config.copilot.enabled && s.config.realTimeEnabled) = true
      · simp only [h2, if_true]
      · simp [h2]
  · intro s h
    unfold TTSCopilot.start
    rw [if_pos h]
  · intro s
    unfold TTSCopilot.stop
    by_cases h : s.isRunning = true
    · rw [if_neg (by simp [h])]
    · rw [if_pos (by simp [h])]
      simpa using h
  · intro s h
    unfold TTSCopilot.stop
    rw [if_pos (by simp [h])]
  · cases h : s.isRunning
    · exact Or.inr rfl
    · exact Or.inl rfl

/-- Claim C7, witness: on a freshly constructed orchestrator, `stop`
before any `start` is a no-op, and a second `start` after a first one
is a no-op. -/
theorem c7_lifecycle_idempotent_witness :
    TTSCopilot.stop (TTSCopilot.construct none) = (TTSCopilot.construct none, []) ∧
    TTSCopilot.start (TTSCopilot.start (TTSCopilot.construct none)).1 =
      ((TTSCopilot.start (TTSCopilot.construct none)).1, none) :=
  ⟨c7_lifecycle_idempotent.2.2.2.2.1 _ (c7_lifecycle_idempotent.1 none),
    c7_lifecycle_idempotent.2.2.1 _ (c7_lifecycle_idempotent.2.1 _)⟩

/-- Claim C8: for every registered-listener list and delivered
suggestion, `notifySuggestionListeners` invokes exactly the registered
listeners, each once, in registration order — the invocation trace
projects to the registry itself, whether or not individual listeners
raise (raised errors are caught per listener and the loop continues);
and registration by repeated `onSuggestion` preserves order. -/
theorem c8_notify_each_listener_once_in_order :
    (∀ (α : Type) (run : α → CopilotSuggestion → Except String Unit)
        (suggestion : CopilotSuggestion) (listeners : List α),
        (CopilotIntegration.notifySuggestionListeners run suggestion
            listeners).map Prod.fst = listeners) ∧
    (∀ (ci : CopilotIntegState) (regs : List ListenerTag),
        (regs.foldl CopilotIntegration.onSuggestion ci).suggestionListeners =
          ci.suggestionListeners ++ regs) := by
  constructor
  · intro α run suggestion listeners
    induction listeners with
    | nil => rfl
    | cons l rest ih =>
      show (match run l suggestion with
            | Except.ok _ => (l, none) ::
                CopilotIntegration.notifySuggestionListeners run suggestion rest
            | Except.error e => (l, some e) ::
                CopilotIntegration.notifySuggestionListeners run suggestion rest).map
          Prod.fst = l :: rest
      cases run l suggestion with
      | ok u => rw [List.map_cons, ih]
      | error e => rw [List.map_cons, ih]
  · intro ci regs
    induction regs generalizing ci with
    | nil => simp
    | cons l rest ih =>
      rw [List.foldl_cons, ih]
      unfold CopilotIntegration.onSuggestion
      rw [List.append_assoc]
      rfl

/-- A runtime voice object with an out-of-range pitch and the other
numeric fields absent. -/
def outOfRangeVoice : VoiceConfig :=
  { pitch := some 99, speed := none, volume := none, voice := none }

/-- Claim C9: construction of the config store is a shallow merge over
the defaults with no validation: a supplied voice object replaces the
entire default voice config as it is (an omitted voice key keeps the
default; fields omitted inside the supplied object stay undefined
rather than defaulted), and out-of-range values are accepted, so the
store can begin in a state violating the documented bounds. -/
theorem c9_construct_shallow_merge_no_validation :
    (∀ v : VoiceConfig,
        (ConfigManager.construct (some { voice := some v })).voice = v) ∧
    (∀ (rt : Option Bool) (cp : Option CopilotConfig),
        (ConfigManager.construct
            (some { voice := none, realTimeEnabled := rt, copilot := cp })).voice =
          DEFAULT_CONFIG.voice) ∧
    (ConfigManager.construct (some { voice := some outOfRangeVoice })).voice.speed
      = none ∧
    voiceOutOfRange
      (ConfigManager.construct (some { voice := some outOfRangeVoice })).voice := by
  refine ⟨fun v => rfl, fun rt cp => rfl, rfl, by decide⟩

/-- Claim C10: when the suggestion-source adapter is connected and a
copilot-config update merges to `enabled = false`, the orchestrator
skips re-initialization entirely — the integration state is unchanged
and `isCopilotConnected` still reports true after the call. -/
theorem c10_disable_keeps_connection (s : TTSCopilotState) (p : CopilotPatch)
    (hconn : s.copilot.connected = true)
    (hdis : (ConfigManager.mergeCopilot s.config.copilot p).enabled = false) :
    (TTSCopilot.updateCopilotConfig s p).2 = false ∧
    (TTSCopilot.updateCopilotConfig s p).1.copilot = s.copilot ∧
    TTSCopilot.isCopilotConnected (TTSCopilot.updateCopilotConfig s p).1 = true := by
  unfold TTSCopilot.updateCopilotConfig
  rw [if_neg (by
    show ¬(ConfigManager.updateCopilotConfig s.config p).copilot.enabled = true
    show ¬(ConfigManager.mergeCopilot s.config.copilot p).enabled = true
    rw [hdis]
    exact Bool.false_ne_true)]
  exact ⟨rfl, rfl, hconn⟩

/-- A connected orchestrator state used to witness claim C10. -/
def connectedState : TTSCopilotState :=
  { config := DEFAULT_CONFIG
    engine := TTSEngine.construct DEFAULT_CONFIG.voice
    copilot :=
      { config := { apiUrl := none, apiKey := none, enabled := true }
        connected := true
        listening := false
        suggestionListeners := [] }
    isRunning := false }

/-- Claim C10, witness: a connected integration, updated with
`{ enabled: false }`. -/
theorem c10_disable_keeps_connection_witness :
    connectedState.copilot.connected = true ∧
    TTSCopilot.isCopilotConnected
      (TTSCopilot.updateCopilotConfig connectedState
        { enabled := some false }).1 = true :=
  ⟨rfl,
    (c10_disable_keeps_connection connectedState { enabled := some false }
      rfl rfl).2.2⟩
